import Mathlib

/-!
Verification of the dplace-to-CLDF conversion script
(`scripts/dplace_to_cldf.py`).

The script maps five source entity types (societies, society relations,
variables, codes, observations) onto five CLDF tables.  Its core is
`Converter._itercols`, which turns a per-entity field-conversion-rule
table into ordered column specifications plus a per-row extraction
function, and five converter classes that compose `_itercols` with a
record iterator, a static table component, and a skip predicate.

This file shallowly embeds those parts:

* strings that get split are modelled as `List Char`; Python's
  `str.split(sep)` (non-overlapping, leftmost-first, `ValueError` on an
  empty separator) is modelled by `pySplit`;
* the rule tables are association lists from field name to `Rule`
  (`drop` for a `None` entry, `rename` for a bare string, `config` for a
  dict); dict mutation done by `_itercols` (`setdefault` of `'name'`,
  replacement of the `'separator'` value, insertion of `'datatype'`) is
  modelled by threading the updated table through `itercols`;
* Python raising (unpacking a separator value that is neither a
  `Separator` pair nor a two-character string) is modelled by `Option`.
-/

/-- Cell values flowing through extraction: a string, a list of strings
(after splitting), an integer id, or an error marker for operations the
Python code would raise on. -/
inductive Value where
  | s (cs : List Char)
  | vlist (ls : List (List Char))
  | num (n : Nat)
  | err
deriving DecidableEq

/-- Value stored under the `'separator'` key of a conversion rule: either
the `Separator` namedtuple `(sep, split)` from the source, or a plain
string (what `_itercols` writes back into the dict). -/
inductive SepVal where
  | sepTuple (sep : List Char) (split : Bool)
  | str (cs : List Char)
deriving DecidableEq

/-- A column datatype: either a bare tag (`'string'`, `'float'`,
`'integer'`) or a structured constraint dict with base, format and
bounds, as used in the `_convert` tables of the source. -/
inductive Datatype where
  | plain (tag : String)
  | structured (base : String) (format : Option String)
      (minimum maximum : Option Int)
deriving DecidableEq

/-- A column configuration dict.  Recognized keys of the configuration
mappings in the source's `_convert` tables; a `none` field means the key
is absent.  The `null` key itself stores an optional string (`'NA'`) or
Python `None` (modelled as `some none`). -/
structure Config where
  name : Option String := none
  propertyUrl : Option String := none
  required : Option Bool := none
  datatype : Option Datatype := none
  separator : Option SepVal := none
  null : Option (Option String) := none
deriving DecidableEq

/-- A field-conversion rule: the value stored under a field name in a
`_convert` table.  `drop` is a Python `None` entry (the field is
omitted), `rename` a bare string, `config` a configuration dict. -/
inductive Rule where
  | drop
  | rename (target : String)
  | config (cfg : Config)
deriving DecidableEq

/-- A source record field as reported by `attr.fields`: its name and
whether its declared converter is `float` (`f.convert is float`). -/
structure SrcField where
  name : String
  isFloat : Bool
deriving DecidableEq

/-- The transform attached to a column by `_itercols`: the identity, or
`lambda x: x.split(sep)` for a separator with a true split flag. -/
inductive Transform where
  | id
  | splitOn (sep : List Char)
deriving DecidableEq

/-- One column produced by `_itercols`: the source field name read by the
extraction, the transform, the target column name, and the final
configuration dict passed to `add_component`. -/
structure ColSpec where
  name : String
  transform : Transform
  target : String
  args : Config
deriving DecidableEq

/-- A field-conversion-rule table (`_convert` in the source): an ordered
association list from source field name to rule. -/
abbrev RuleTable : Type := List (String × Rule)

/-- Loop body of Python `str.split(sep)` for a non-empty separator
`c :: cs`, with explicit fuel.  Scans left to right; on a match emits the
accumulated token and restarts after the separator.  The fuel only needs
to dominate the length of the scanned string (each step consumes at
least one character), so `pySplit` passes the string's length. -/
def splitGoF (c : Char) (cs : List Char) : Nat → List Char → List Char → List (List Char)
  | 0, s, acc => [acc.reverse ++ s]
  | fuel + 1, s, acc =>
    match s with
    | [] => [acc.reverse]
    | x :: xs =>
      if (c :: cs).isPrefixOf (x :: xs) then
        acc.reverse :: splitGoF c cs fuel (xs.drop cs.length) []
      else
        splitGoF c cs fuel xs (x :: acc)

/-- Python `str.split(sep)`: `none` models the `ValueError` raised on an
empty separator; otherwise the leftmost-first, non-overlapping split. -/
def pySplit (sep s : List Char) : Option (List (List Char)) :=
  match sep with
  | [] => none
  | c :: cs => some (splitGoF c cs s.length s [])

/-- Apply a column transform to a cell value.  Splitting a non-string, or
splitting on an empty separator, is a raise in Python and yields the
error marker here. -/
def applyTransform : Transform → Value → Value
  | Transform.id, v => v
  | Transform.splitOn sep, v =>
    match v with
    | Value.s cs =>
      match pySplit sep cs with
      | some ls => Value.vlist ls
      | none => Value.err
    | _ => Value.err

/-- Unpack the value of the `'separator'` key, modelling Python's
`sep, split = args['separator']` followed by the truthiness test
`if split:`.  A `Separator` namedtuple unpacks to its two components; a
two-character string unpacks to its two characters, each a one-character
string, and a one-character string is always truthy; any other string
length raises `ValueError` (`none`). -/
def unpackSeparator : SepVal → Option (List Char × Bool)
  | SepVal.sepTuple sep split => some (sep, split)
  | SepVal.str cs =>
    match cs with
    | [c1, _] => some ([c1], true)
    | _ => none

/-- Infer the default datatype inserted by `_itercols` when the
configuration has no explicit `'datatype'` key:
`'float' if f.convert is float else 'string'`. -/
def inferDatatype (f : SrcField) : Datatype :=
  Datatype.plain (if f.isFloat then "float" else "string")

/-- Shared tail of the `_itercols` loop body: separator processing
(replace the stored separator value by the bare delimiter string, pick
the transform from the split flag) followed by default-datatype
insertion.  Returns the column and the final configuration dict (the
same object, in Python, as the one stored in the rule table when the
rule was a dict).  `none` models the `ValueError` raised when unpacking
an ill-shaped separator value. -/
def finishColAux (f : SrcField) (target : String) (cfg : Config) :
    Option SepVal → Option (ColSpec × Config)
  | some sv =>
    (unpackSeparator sv).map (fun p =>
      let cfg2 := { cfg with separator := some (SepVal.str p.1) }
      let transform := if p.2 then Transform.splitOn p.1 else Transform.id
      let cfg3 :=
        if cfg2.datatype = none then
          { cfg2 with datatype := some (inferDatatype f) }
        else cfg2
      (ColSpec.mk f.name transform target cfg3, cfg3))
  | none =>
    let cfg3 :=
      if cfg.datatype = none then
        { cfg with datatype := some (inferDatatype f) }
      else cfg
    some (ColSpec.mk f.name Transform.id target cfg3, cfg3)

/-- Dispatch of the shared loop tail on the configuration's stored
separator value. -/
def finishCol (f : SrcField) (target : String) (cfg : Config) :
    Option (ColSpec × Config) :=
  finishColAux f target cfg cfg.separator

/-- Replace the rule stored under a key of a rule table (Python mutates
the dict value in place; the key is known to be present). -/
def updateRule (k : String) (r : Rule) (rules : RuleTable) : RuleTable :=
  rules.map (fun p => if p.1 = k then (k, r) else p)

/-- One iteration of `Converter._itercols` over a source field.  Yields
`none` for the whole result when Python would raise; otherwise the
optional column (no column for an omitted field) and the rule table
after mutation.  Only a dict-shaped rule aliases the table entry, so
only that branch writes the final configuration back. -/
def processFieldAux (f : SrcField) (rules : RuleTable) :
    Option Rule → Option (Option ColSpec × RuleTable)
  | some Rule.drop => some (none, rules)
  | some (Rule.rename t) =>
    (finishCol f t { name := some t }).map (fun p => (some p.1, rules))
  | some (Rule.config cfg) =>
    let target := cfg.name.getD f.name
    let cfg1 := { cfg with name := some target }
    (finishCol f target cfg1).map
      (fun p => (some p.1, updateRule f.name (Rule.config p.2) rules))
  | none =>
    (finishCol f f.name { name := some f.name }).map (fun p => (some p.1, rules))

/-- Dispatch of the `_itercols` loop body on the field's rule-table
entry. -/
def processField (f : SrcField) (rules : RuleTable) :
    Option (Option ColSpec × RuleTable) :=
  processFieldAux f rules (List.lookup f.name rules)

/-- The `_itercols` loop: ordered column specifications for the given
fields, threading the rule table through the in-place dict mutations. -/
def itercols : List SrcField → RuleTable → Option (List ColSpec × RuleTable)
  | [], rules => some ([], rules)
  | f :: fs, rules =>
    (processField f rules).bind (fun pr =>
      (itercols fs pr.2).map (fun pr2 => (pr.1.toList ++ pr2.1, pr2.2)))

/-- Row extraction built in `Converter.__init__`: for each column, read
the source field, apply the transform, and store the result under the
target column name (a dict comprehension in the source; target names are
unique in every table of this script, so an association list is
faithful). -/
def extract (cols : List ColSpec) (record : String → Value) :
    List (String × Value) :=
  cols.map (fun c => (c.target, applyTransform c.transform (record c.name)))

/-- The CLDF term namespace used throughout the script. -/
def cldf (t : String) : String := "http://cldf.clld.org/v1.0/terms.rdf#" ++ t

/-- A foreign-key entry of a table schema: the referring column, the
referenced table resource, and the referenced column. -/
structure FKey where
  columnReference : String
  resource : String
  refColumnReference : String
deriving DecidableEq

/-- A primary key as written in the source: `ValueTable` declares the
bare string `'id'`, the other tables declare a list. -/
inductive PrimaryKey where
  | str (s : String)
  | list (l : List String)
deriving DecidableEq

/-- The `tableSchema` sub-dict of a component.  A component without a
`foreignKeys` key is modelled with the empty list. -/
structure TableSchema where
  primaryKey : PrimaryKey
  foreignKeys : List FKey := []
deriving DecidableEq

/-- A static `_component` dict of a converter class. -/
structure TableSpec where
  url : String
  dcConformsTo : Option String := none
  tableSchema : TableSchema
deriving DecidableEq

/-- The `LanguageTable._component` dict. -/
def languageTableComponent : TableSpec :=
  { url := "societies.csv"
    dcConformsTo := some (cldf "LanguageTable")
    tableSchema := { primaryKey := PrimaryKey.list ["id"] } }

/-- The `LangugageRelatedTable._component` dict (the class-name typo is
the source's). -/
def langugageRelatedTableComponent : TableSpec :=
  { url := "societies_mapping.csv"
    tableSchema :=
      { primaryKey := PrimaryKey.list ["id"]
        foreignKeys := [FKey.mk "id" "societies.csv" "id"] } }

/-- The `ParameterTable._component` dict. -/
def parameterTableComponent : TableSpec :=
  { url := "variables.csv"
    dcConformsTo := some (cldf "ParameterTable")
    tableSchema := { primaryKey := PrimaryKey.list ["id"] } }

/-- The `CodeTable._component` dict. -/
def codeTableComponent : TableSpec :=
  { url := "codes.csv"
    dcConformsTo := some (cldf "CodeTable")
    tableSchema :=
      { primaryKey := PrimaryKey.list ["var_id", "code"]
        foreignKeys := [FKey.mk "var_id" "variables.csv" "id"] } }

/-- The `ValueTable._component` dict: note the bare-string primary key
and the foreign key on `soc_id` into `societies.csv`. -/
def valueTableComponent : TableSpec :=
  { url := "data.csv"
    dcConformsTo := some (cldf "ValueTable")
    tableSchema :=
      { primaryKey := PrimaryKey.str "id"
        foreignKeys := [FKey.mk "soc_id" "societies.csv" "id"] } }

/-- The datatype of the `code` column shared between `CodeTable` and
`ValueTable` (`CodeTable._convert['code']['datatype']`). -/
def codeDatatype : Datatype :=
  Datatype.structured "string" (some "-?\\d+(?:.\\d+)?(?:E[+-]\\d+)?|NA") none none

/-- The `LanguageTable._convert` rule table. -/
def languageTableConvert : RuleTable :=
  [ ("id", Rule.config { propertyUrl := some (cldf "id"), required := some true }),
    ("xd_id", Rule.config
      { required := some true
        datatype := some (Datatype.structured "string" (some "xd\\d+") none none) }),
    ("pref_name_for_society", Rule.config
      { propertyUrl := some (cldf "name"), required := some true }),
    ("glottocode", Rule.config
      { propertyUrl := some (cldf "glottocode"), required := some true }),
    ("ORIG_name_and_ID_in_this_dataset", Rule.config { required := some true }),
    ("alt_names_by_society", Rule.config
      { separator := some (SepVal.sepTuple [',', ' '] true) }),
    ("main_focal_year", Rule.config
      { datatype := some (Datatype.plain "integer"), null := some (some "NA") }),
    ("HRAF_name_ID", Rule.config
      { datatype := some (Datatype.structured "string" (some ".+ \\([^)]+\\)") none none) }),
    ("HRAF_link", Rule.config
      { datatype := some (Datatype.structured "string" (some "http://.+|in process") none none) }),
    ("origLat", Rule.config
      { datatype := some (Datatype.structured "decimal" none (some (-90)) (some 90))
        required := some true }),
    ("origLong", Rule.config
      { datatype := some (Datatype.structured "decimal" none (some (-190)) (some 180))
        required := some true }),
    ("Lat", Rule.config
      { propertyUrl := some (cldf "latitude")
        datatype := some (Datatype.structured "decimal" none (some (-90)) (some 90))
        required := some true }),
    ("Long", Rule.config
      { propertyUrl := some (cldf "longitude")
        datatype := some (Datatype.structured "decimal" none (some (-180)) (some 180))
        required := some true }),
    ("Comment", Rule.config { propertyUrl := some (cldf "comment") }) ]

/-- The `LangugageRelatedTable._convert` rule table. -/
def langugageRelatedTableConvert : RuleTable :=
  [ ("id", Rule.config { propertyUrl := some (cldf "id"), required := some true }),
    ("related", Rule.config
      { separator := some (SepVal.sepTuple [';', ' '] false) }) ]

/-- The `ParameterTable._convert` rule table; the `codes` field is
dropped (a Python `None` entry). -/
def parameterTableConvert : RuleTable :=
  [ ("id", Rule.config { propertyUrl := some (cldf "id"), required := some true }),
    ("category", Rule.config
      { separator := some (SepVal.sepTuple [',', ' '] false)
        required := some true }),
    ("title", Rule.config
      { propertyUrl := some (cldf "name"), required := some true }),
    ("definition", Rule.config { propertyUrl := some (cldf "description") }),
    ("type", Rule.config
      { datatype := some
          (Datatype.structured "string" (some "Categorical|Ordinal|Continuous") none none)
        required := some true }),
    ("source", Rule.config { propertyUrl := some (cldf "source") }),
    ("notes", Rule.config { propertyUrl := some (cldf "comment") }),
    ("codes", Rule.drop) ]

/-- The `CodeTable._convert` rule table. -/
def codeTableConvert : RuleTable :=
  [ ("var_id", Rule.config
      { name := some "var_id"
        propertyUrl := some (cldf "parameterReference")
        required := some true }),
    ("code", Rule.config
      { name := some "code", datatype := some codeDatatype, required := some true }),
    ("description", Rule.config
      { name := some "description", propertyUrl := some (cldf "description") }),
    ("name", Rule.config
      { name := some "name", propertyUrl := some (cldf "name"), required := some true }) ]

/-- The `ValueTable._convert` rule table. -/
def valueTableConvert : RuleTable :=
  [ ("soc_id", Rule.config
      { propertyUrl := some (cldf "languageReference"), required := some true }),
    ("sub_case", Rule.config { null := some none, required := some true }),
    ("year", Rule.config
      { datatype := some (Datatype.structured "string" (some "-?\\d+(?:-\\d+)?|(?:NA)?") none none)
        null := some none
        required := some true }),
    ("var_id", Rule.config
      { propertyUrl := some (cldf "parameterReference"), required := some true }),
    ("code", Rule.config
      { propertyUrl := some (cldf "codeReference")
        datatype := some codeDatatype
        required := some true }),
    ("comment", Rule.config { propertyUrl := some (cldf "comment") }),
    ("references", Rule.config
      { propertyUrl := some (cldf "source")
        separator := some (SepVal.sepTuple [';', ' '] false)
        null := some none
        required := some true }) ]

/-- The `ValueTable._extra` column configuration: the synthesized
leading `id` column. -/
def valueTableExtra : Config :=
  { name := some "id", propertyUrl := some (cldf "id"), required := some true }

/-- A row written to a table: an ordered mapping from column name to
value (a Python dict). -/
abbrev Row : Type := List (String × Value)

/-- Modelled from the spec: the external source reader's variable
record, which exposes its own ordered sequence of code records; a code
record reaches `CodeTable` as a namedtuple and is written out via
`_asdict()`, so it is modelled directly as a row. -/
structure VariableRec where
  record : String → Value
  codes : List Row

/-- Modelled from the spec: a dataset handle of the external source
reader, exposing ordered sequences of society, society-relation,
variable (with nested code) and observation records.  Records are
mappings from field name to value (`getattr` in the source).  The
`vars` field models the handle's `variables` attribute (`variables` is a
reserved word in Lean). -/
structure Dataset where
  societies : List (String → Value)
  society_relations : List (String → Value)
  vars : List VariableRec
  data : List (String → Value)

/-- Modelled from the spec: the declared fields of the external
`pydplace.api.Society` record, in the order the `LanguageTable` rule
table lists them; none of the fields whose datatype is left to
inference declares a `float` converter. -/
def societyFields : List SrcField :=
  [ SrcField.mk "id" false, SrcField.mk "xd_id" false,
    SrcField.mk "pref_name_for_society" false, SrcField.mk "glottocode" false,
    SrcField.mk "ORIG_name_and_ID_in_this_dataset" false,
    SrcField.mk "alt_names_by_society" false, SrcField.mk "main_focal_year" false,
    SrcField.mk "HRAF_name_ID" false, SrcField.mk "HRAF_link" false,
    SrcField.mk "origLat" true, SrcField.mk "origLong" true,
    SrcField.mk "Lat" true, SrcField.mk "Long" true, SrcField.mk "Comment" false ]

/-- Modelled from the spec: the declared fields of the external
`pydplace.api.RelatedSocieties` record. -/
def relatedFields : List SrcField :=
  [SrcField.mk "id" false, SrcField.mk "related" false]

/-- Modelled from the spec: the declared fields of the external
`pydplace.api.Variable` record. -/
def variableFields : List SrcField :=
  [ SrcField.mk "id" false, SrcField.mk "category" false, SrcField.mk "title" false,
    SrcField.mk "definition" false, SrcField.mk "type" false,
    SrcField.mk "source" false, SrcField.mk "notes" false, SrcField.mk "codes" false ]

/-- Modelled from the spec: the declared fields of the external
`pydplace.api.Data` observation record. -/
def dataFields : List SrcField :=
  [ SrcField.mk "soc_id" false, SrcField.mk "sub_case" false, SrcField.mk "year" false,
    SrcField.mk "var_id" false, SrcField.mk "code" false, SrcField.mk "comment" false,
    SrcField.mk "references" false ]

/-- Columns computed once in `LanguageTable`'s construction.  The
fallback branch is unreachable for this rule table (construction would
raise in Python). -/
def languageTableColumns : List ColSpec :=
  match itercols societyFields languageTableConvert with
  | some p => p.1
  | none => []

/-- Columns computed once in `LangugageRelatedTable`'s construction. -/
def langugageRelatedTableColumns : List ColSpec :=
  match itercols relatedFields langugageRelatedTableConvert with
  | some p => p.1
  | none => []

/-- Columns computed once in `ParameterTable`'s construction. -/
def parameterTableColumns : List ColSpec :=
  match itercols variableFields parameterTableConvert with
  | some p => p.1
  | none => []

/-- Columns computed once in `ValueTable`'s construction. -/
def valueTableColumns : List ColSpec :=
  match itercols dataFields valueTableConvert with
  | some p => p.1
  | none => []

/-- The `SkipMixin.skip` predicate: true exactly when the converter's
record iterator is exhausted immediately
(`next(iter(cls._iterdata(dataset)), sentinel) is sentinel`). -/
def skipMixinSkip (items : List α) : Bool := items.isEmpty

/-- The code records of a dataset in `CodeTable._iterdata` order
(`c for v in dataset.variables for c in v.codes`). -/
def datasetCodes (ds : Dataset) : List Row :=
  ds.vars.flatMap VariableRec.codes

/-- The write-kwargs key of a component:
`component.get('dc:conformsTo', component['url'])`. -/
def componentKey (t : TableSpec) : String := t.dcConformsTo.getD t.url

/-- The five registered converters, in registration (execution) order. -/
inductive Conv where
  | language
  | related
  | parameter
  | code
  | value
deriving DecidableEq

/-- The fixed conversion registry `CONVERTERS`. -/
def converterList : List Conv :=
  [Conv.language, Conv.related, Conv.parameter, Conv.code, Conv.value]

/-- The static `_component` of each converter. -/
def convComponent : Conv → TableSpec
  | Conv.language => languageTableComponent
  | Conv.related => langugageRelatedTableComponent
  | Conv.parameter => parameterTableComponent
  | Conv.code => codeTableComponent
  | Conv.value => valueTableComponent

/-- The `skip` predicate of each converter: the `SkipMixin` emptiness
test for the three skippable converters, the inherited
`BaseConverter.skip` (constantly false) for `ParameterTable` and
`ValueTable`. -/
def convSkip : Conv → Dataset → Bool
  | Conv.language, ds => skipMixinSkip ds.societies
  | Conv.related, ds => skipMixinSkip ds.society_relations
  | Conv.parameter, _ => false
  | Conv.code, ds => skipMixinSkip (datasetCodes ds)
  | Conv.value, _ => false

/-- Dict assignment `row[k] = v`: update the entry if the key is
present, append otherwise. -/
def dictSet (row : Row) (k : String) (v : Value) : Row :=
  if row.any (fun p => p.1 == k) then
    row.map (fun p => if p.1 == k then (k, v) else p)
  else
    row ++ [(k, v)]

/-- Python `enumerate(xs, n)`. -/
def enumerateFrom (n : Nat) : List α → List (Nat × α)
  | [] => []
  | x :: xs => (n, x) :: enumerateFrom (n + 1) xs

/-- The rows of `ValueTable.__call__`: extraction followed by
`result['id'] = i` for the 1-based enumeration index. -/
def valueTableRows (ds : Dataset) : List Row :=
  (enumerateFrom 1 ds.data).map
    (fun p => dictSet (extract valueTableColumns p.2) "id" (Value.num p.1))

/-- The foreign-key filter of `ValueTable.__call__`: drop every foreign
key whose referenced resource is `LanguageTable._component['url']`. -/
def filterSocietiesFks (t : TableSpec) : TableSpec :=
  let reduced :=
    t.tableSchema.foreignKeys.filter
      (fun f => f.resource != languageTableComponent.url)
  { t with tableSchema := { t.tableSchema with foreignKeys := reduced } }

/-- The component emitted by `ValueTable.__call__` for a dataset: the
static component, with the societies foreign key dropped (on a deep
copy) exactly when `LanguageTable.skip(dataset)` is true. -/
def valueTableCallComponent (ds : Dataset) : TableSpec :=
  if skipMixinSkip ds.societies then filterSocietiesFks valueTableComponent
  else valueTableComponent

/-- An object store for the aliasing-sensitive part of
`ValueTable.__call__`: the table specs live in a heap-like list and are
referred to by index, so that `copy.deepcopy` (allocate a fresh object
with the same value) and in-place mutation of `foreignKeys` can be
distinguished from mutation of the shared static spec. -/
structure Store where
  specs : List TableSpec

/-- The component-handling prefix of `ValueTable.__call__` on the object
store: `component = self._add_component_args[0]` aliases the shared
spec at `r`; if the dataset has no societies the spec is deep-copied
(appended as a fresh object), the copy's foreign-key list is overwritten
with the filtered list, and the copy's reference is used; otherwise the
shared reference is used unchanged. -/
def valueTableRun (st : Store) (r : Nat) (ds : Dataset) : Store × Nat :=
  if skipMixinSkip ds.societies then
    let orig := st.specs.getD r valueTableComponent
    let n := st.specs.length
    ((Store.mk ((st.specs ++ [orig]).set n (filterSocietiesFks orig))), n)
  else
    (st, r)

/-- Rows produced by each converter for a dataset, in source iteration
order.  `CodeTable.__call__` writes each code record back out via
`_asdict()`; the generic converters map their extraction over their
record iterator. -/
def convRows : Conv → Dataset → List Row
  | Conv.language, ds => ds.societies.map (extract languageTableColumns)
  | Conv.related, ds => ds.society_relations.map (extract langugageRelatedTableColumns)
  | Conv.parameter, ds => ds.vars.map (fun v => extract parameterTableColumns v.record)
  | Conv.code, ds => datasetCodes ds
  | Conv.value, ds => valueTableRows ds

/-- The write set accumulated by the driver loop in `main`: for each
non-skipped converter, its component key is added to `write_kwargs`. -/
def writeKeys (ds : Dataset) : List String :=
  (converterList.filter (fun c => !convSkip c ds)).map
    (fun c => componentKey (convComponent c))

/-- The driver loop of `main` as a relation: processing a converter list
against a dataset yields the accumulated write set, skipping a converter
exactly when its `skip` predicate holds. -/
inductive ConvertersRun : List Conv → Dataset → List (String × List Row) → Prop where
  | nil (ds : Dataset) : ConvertersRun [] ds []
  | skipped (c : Conv) (cs : List Conv) (ds : Dataset) (out : List (String × List Row)) :
      convSkip c ds = true → ConvertersRun cs ds out → ConvertersRun (c :: cs) ds out
  | emitted (c : Conv) (cs : List Conv) (ds : Dataset) (out : List (String × List Row)) :
      convSkip c ds = false → ConvertersRun cs ds out →
      ConvertersRun (c :: cs) ds ((componentKey (convComponent c), convRows c ds) :: out)

/-- The per-dataset output directories computed by the loop in `main`:
`target_dir = os.path.join(target_dir, source_ds.id)` reassigns the
loop variable, so each join starts from the previous iteration's
result. -/
def mainTargetDirs : String → List String → List String
  | _, [] => []
  | cur, i :: ids => (cur ++ "/" ++ i) :: mainTargetDirs (cur ++ "/" ++ i) ids

/-- The per-dataset output directories the spec describes: every dataset
goes into a subdirectory directly under the one target root. -/
def specTargetDirs (root : String) (ids : List String) : List String :=
  ids.map (fun i => root ++ "/" ++ i)

/-- All `Separator` values stored in a rule table. -/
def collectSeparators (rt : RuleTable) : List (List Char × Bool) :=
  rt.flatMap (fun p =>
    match p.2 with
    | Rule.config cfg =>
      match cfg.separator with
      | some (SepVal.sepTuple sep split) => [(sep, split)]
      | _ => []
    | _ => [])

/-- All `Separator` values in the five field-conversion-rule tables, in
registration order. -/
def allTableSeparators : List (List Char × Bool) :=
  collectSeparators languageTableConvert ++
  collectSeparators langugageRelatedTableConvert ++
  collectSeparators parameterTableConvert ++
  collectSeparators codeTableConvert ++
  collectSeparators valueTableConvert

/-- Run the column-spec builder twice from the same field list, the
second time from the rule table as mutated by the first run — the
situation of constructing a converter class a second time. -/
def itercolsTwice (fields : List SrcField) (rt : RuleTable) :
    Option (List ColSpec × List ColSpec) :=
  match itercols fields rt with
  | none => none
  | some p1 =>
    match itercols fields p1.2 with
    | none => none
    | some p2 => some (p1.1, p2.1)

/-- Substring containment: some position of `s` starts an occurrence of
`sep` (Python's `sep in s`). -/
def occursIn (sep s : List Char) : Bool :=
  (List.range (s.length + 1)).any (fun i => sep.isPrefixOf (s.drop i))

/-- Concrete configuration used to exercise the split-extraction
theorem: a separator field with delimiter `", "` and a true split flag,
as on `alt_names_by_society`. -/
def c3WitnessCfg : Config := { separator := some (SepVal.sepTuple [',', ' '] true) }

/-- Concrete field used to exercise the split-extraction theorem. -/
def c3WitnessField : SrcField := SrcField.mk "alt_names_by_society" false

/-- The column list built from the concrete split-extraction witness
configuration. -/
def c3WitnessCols : List ColSpec :=
  [ ColSpec.mk "alt_names_by_society" (Transform.splitOn [',', ' '])
      "alt_names_by_society"
      { name := some "alt_names_by_society"
        datatype := some (Datatype.plain "string")
        separator := some (SepVal.str [',', ' ']) } ]

/-- The rule table after building the concrete split-extraction witness
columns. -/
def c3WitnessRt : RuleTable :=
  [ ("alt_names_by_society", Rule.config
      { name := some "alt_names_by_society"
        datatype := some (Datatype.plain "string")
        separator := some (SepVal.str [',', ' ']) }) ]

/-- Concrete field list used to exercise the four rule shapes of the
column-spec builder: a dropped field, a renamed field, a configured
floating-point field with no explicit datatype, and a field with no
rule-table entry at all (the default passthrough branch). -/
def c4WitnessFields : List SrcField :=
  [ SrcField.mk "codes" false, SrcField.mk "title" false,
    SrcField.mk "year" true, SrcField.mk "comment" false ]

/-- Concrete rule table used to exercise the three rule shapes of the
column-spec builder. -/
def c4WitnessRules : RuleTable :=
  [("codes", Rule.drop), ("title", Rule.rename "name"), ("year", Rule.config {})]

/-- The column list built from the concrete four-rule-shape witness. -/
def c4WitnessCols : List ColSpec :=
  [ ColSpec.mk "title" Transform.id "name"
      { name := some "name", datatype := some (Datatype.plain "string") },
    ColSpec.mk "year" Transform.id "year"
      { name := some "year", datatype := some (Datatype.plain "float") },
    ColSpec.mk "comment" Transform.id "comment"
      { name := some "comment", datatype := some (Datatype.plain "string") } ]

/-- The rule table after building the concrete four-rule-shape witness
columns (the passthrough field adds no entry). -/
def c4WitnessRt : RuleTable :=
  [ ("codes", Rule.drop), ("title", Rule.rename "name"),
    ("year", Rule.config
      { name := some "year", datatype := some (Datatype.plain "float") }) ]

/-! ### Properties of the split model -/

theorem splitGoF_no_match (c : Char) (cs : List Char) :
    ∀ (fuel : Nat) (s acc : List Char), s.length ≤ fuel →
    (∀ i, (c :: cs).isPrefixOf (s.drop i) = false) →
    splitGoF c cs fuel s acc = [acc.reverse ++ s] := by
  intro fuel
  induction fuel with
  | zero => intro s acc _ _; rfl
  | succ fuel ih =>
    intro s acc hlen h
    cases s with
    | nil => simp [splitGoF]
    | cons x xs =>
      have h0 : (c :: cs).isPrefixOf (x :: xs) = false := by
        have h' := h 0
        simpa using h'
      have hxs : xs.length ≤ fuel := by
        simp only [List.length_cons] at hlen
        omega
      have hrest : ∀ i, (c :: cs).isPrefixOf (xs.drop i) = false := by
        intro i
        have h' := h (i + 1)
        simpa [List.drop_succ_cons] using h'
      simp only [splitGoF, h0, Bool.false_eq_true, if_false]
      rw [ih xs (x :: acc) hxs hrest]
      simp

theorem splitGoF_unique (c : Char) (cs b : List Char) :
    ∀ (a acc : List Char) (fuel : Nat),
    (a ++ (c :: cs) ++ b).length ≤ fuel →
    (∀ i, i ≠ a.length → (c :: cs).isPrefixOf ((a ++ (c :: cs) ++ b).drop i) = false) →
    splitGoF c cs fuel (a ++ (c :: cs) ++ b) acc = [acc.reverse ++ a, b] := by
  intro a
  induction a with
  | nil =>
    intro acc fuel hlen h
    simp only [List.nil_append] at hlen h ⊢
    cases fuel with
    | zero =>
      exfalso
      simp [List.length_append] at hlen
    | succ fuel =>
      have hpre : (c :: cs).isPrefixOf (c :: (cs ++ b)) = true :=
        List.isPrefixOf_iff_prefix.mpr (List.prefix_append (c :: cs) b)
      have hfb : b.length ≤ fuel := by
        simp only [List.cons_append, List.length_cons, List.length_append] at hlen
        omega
      have hnb : ∀ i, (c :: cs).isPrefixOf (b.drop i) = false := by
        intro i
        have h' := h (cs.length + 1 + i) (by simp)
        have hidx : cs.length + 1 + i = (c :: cs).length + i := by
          simp [List.length_cons]
        rwa [hidx, List.drop_append] at h'
      simp only [List.cons_append, splitGoF, hpre, if_true]
      rw [List.drop_left cs b]
      rw [splitGoF_no_match c cs fuel b [] hfb hnb]
      simp
  | cons x a' ih =>
    intro acc fuel hlen h
    cases fuel with
    | zero =>
      exfalso
      simp [List.length_append] at hlen
    | succ fuel =>
      have h0 : (c :: cs).isPrefixOf ((x :: a') ++ (c :: cs) ++ b) = false := by
        have h' := h 0 (by simp)
        simpa using h'
      have hlen' : (a' ++ (c :: cs) ++ b).length ≤ fuel := by
        simp only [List.cons_append, List.length_cons, List.length_append] at hlen ⊢
        omega
      have hrest : ∀ i, i ≠ a'.length →
          (c :: cs).isPrefixOf ((a' ++ (c :: cs) ++ b).drop i) = false := by
        intro i hi
        have h' := h (i + 1) (by simp [List.length_cons]; omega)
        simpa [List.drop_succ_cons] using h'
      have hstep : (x :: a') ++ (c :: cs) ++ b = x :: (a' ++ (c :: cs) ++ b) := by
        simp
      rw [hstep] at h0 ⊢
      simp only [splitGoF, h0, Bool.false_eq_true, if_false]
      rw [ih (x :: acc) fuel hlen' hrest]
      simp

/-! ### Claim C3: separator-based extraction -/

/-- Claim C3, counterexample.  The claim quantifies over every delimiter
`d` and strings `a`, `b` not containing `d`; with `d = "aa"`, `a = "a"`,
`b = "a"`, neither `a` nor `b` contains `d`, yet Python's
non-overlapping leftmost-first split of `a + d + b = "aaaa"` yields
`["", "", ""]`, not `["a", "a"]`: occurrences of `d` created at the
junctions defeat the claim. -/
theorem claim_c3_counterexample :
    occursIn ['a', 'a'] ['a'] = false ∧
    ((itercols [SrcField.mk "f" false]
        [("f", Rule.config { separator := some (SepVal.sepTuple ['a', 'a'] true) })]).map
      (fun p => extract p.1 (fun _ => Value.s "aaaa".toList)))
      = some [("f", Value.vlist [[], [], []])] ∧
    Value.vlist ([[], [], []] : List (List Char))
      ≠ Value.vlist ["a".toList, "a".toList] := by
  refine ⟨by decide, by decide, by decide⟩

/-- Claim C3, amended.  For a non-empty delimiter `d` whose only
occurrence in `a + d + b` is the junction one (in particular `a` and `b`
do not contain `d`, and no occurrence straddles a junction), a field
whose rule has a separator with a true split flag extracts `a + d + b`
to the ordered list `[a, b]`; a field whose rule has a separator with a
false split flag extracts every value unchanged. -/
theorem claim_c3 :
    (∀ (d a b : List Char) (f : SrcField) (cfg : Config)
        (cols : List ColSpec) (rt : RuleTable),
      cfg.separator = some (SepVal.sepTuple d true) →
      d ≠ [] →
      (∀ i, i < (a ++ d ++ b).length → i ≠ a.length →
        d.isPrefixOf ((a ++ d ++ b).drop i) = false) →
      itercols [f] [(f.name, Rule.config cfg)] = some (cols, rt) →
      cols.map (fun c => applyTransform c.transform (Value.s (a ++ d ++ b)))
        = [Value.vlist [a, b]]) ∧
    (∀ (d : List Char) (f : SrcField) (cfg : Config)
        (cols : List ColSpec) (rt : RuleTable) (v : Value),
      cfg.separator = some (SepVal.sepTuple d false) →
      itercols [f] [(f.name, Rule.config cfg)] = some (cols, rt) →
      cols.map (fun c => applyTransform c.transform v) = [v]) := by
  constructor
  · intro d a b f cfg cols rt hsep hd huniq hit
    simp only [itercols, processField, processFieldAux, List.lookup,
      beq_self_eq_true, finishCol, finishColAux, hsep, unpackSeparator,
      Option.map, Option.some_bind, Option.map_some'] at hit
    obtain ⟨c0, cs0, rfl⟩ : ∃ c0 cs0, d = c0 :: cs0 := by
      cases d with
      | nil => exact absurd rfl hd
      | cons c0 cs0 => exact ⟨c0, cs0, rfl⟩
    have huniq' : ∀ i, i ≠ a.length →
        (c0 :: cs0).isPrefixOf ((a ++ (c0 :: cs0) ++ b).drop i) = false := by
      intro i hi
      by_cases hlt : i < (a ++ (c0 :: cs0) ++ b).length
      · exact huniq i hlt hi
      · rw [List.drop_eq_nil_of_le (Nat.le_of_not_lt hlt)]
        rfl
    have hsplit : pySplit (c0 :: cs0) (a ++ (c0 :: cs0) ++ b)
        = some [a, b] := by
      simp only [pySplit]
      rw [splitGoF_unique c0 cs0 b a [] (a ++ (c0 :: cs0) ++ b).length
        (Nat.le_refl _) huniq']
      simp
    cases hdt : cfg.datatype with
    | none =>
      simp only [hdt, reduceIte, Option.some.injEq, Prod.mk.injEq] at hit
      obtain ⟨hcols, -⟩ := hit
      subst hcols
      have hsplit' : pySplit (c0 :: cs0) (a ++ c0 :: (cs0 ++ b)) = some [a, b] := by
        simpa using hsplit
      simp [applyTransform, hsplit']
    | some dt =>
      simp only [hdt, reduceIte, Option.some.injEq, Prod.mk.injEq] at hit
      obtain ⟨hcols, -⟩ := hit
      subst hcols
      have hsplit' : pySplit (c0 :: cs0) (a ++ c0 :: (cs0 ++ b)) = some [a, b] := by
        simpa using hsplit
      simp [applyTransform, hsplit']
  · intro d f cfg cols rt v hsep hit
    simp only [itercols, processField, processFieldAux, List.lookup,
      beq_self_eq_true, finishCol, finishColAux, hsep, unpackSeparator,
      Option.map, Option.some_bind, Option.map_some'] at hit
    cases hdt : cfg.datatype with
    | none =>
      simp only [hdt, reduceIte, Option.some.injEq, Prod.mk.injEq] at hit
      obtain ⟨hcols, -⟩ := hit
      subst hcols
      simp [applyTransform]
    | some dt =>
      simp only [hdt, reduceIte, Option.some.injEq, Prod.mk.injEq] at hit
      obtain ⟨hcols, -⟩ := hit
      subst hcols
      simp [applyTransform]

/-- Claim C3, witness: the amended theorem applied to delimiter `", "`,
`a = "a"`, `b = "b"` (both split flags), on the concrete witness field
and configuration. -/
theorem claim_c3_witness :
    (c3WitnessCfg.separator = some (SepVal.sepTuple [',', ' '] true) ∧
     ([',', ' '] : List Char) ≠ [] ∧
     (∀ i, i < (("a".toList ++ [',', ' '] ++ "b".toList) : List Char).length →
        i ≠ ("a".toList : List Char).length →
        ([',', ' '] : List Char).isPrefixOf
          (("a".toList ++ [',', ' '] ++ "b".toList).drop i) = false) ∧
     itercols [c3WitnessField] [(c3WitnessField.name, Rule.config c3WitnessCfg)]
       = some (c3WitnessCols, c3WitnessRt)) ∧
    c3WitnessCols.map
        (fun c => applyTransform c.transform
          (Value.s ("a".toList ++ [',', ' '] ++ "b".toList)))
      = [Value.vlist ["a".toList, "b".toList]] := by
  refine ⟨⟨rfl, by decide, by decide, by decide⟩, ?_⟩
  exact claim_c3.1 [',', ' '] "a".toList "b".toList c3WitnessField c3WitnessCfg
    c3WitnessCols c3WitnessRt rfl (by decide) (by decide) (by decide)

/-! ### Claim C1: conditional societies foreign key on data.csv -/

/-- Claim C1.  The schema emitted by `ValueTable.__call__` for `data.csv`
contains a foreign key referencing `societies.csv` if and only if the
dataset has at least one society record; with zero societies the entry
is filtered out of the (deep-copied) component. -/
theorem claim_c1 (ds : Dataset) :
    (∃ fk ∈ (valueTableCallComponent ds).tableSchema.foreignKeys,
      fk.resource = "societies.csv") ↔ ds.societies ≠ [] := by
  cases h : ds.societies with
  | nil =>
    simp only [valueTableCallComponent, skipMixinSkip, h]
    simp [filterSocietiesFks, valueTableComponent, languageTableComponent]
  | cons x xs =>
    simp only [valueTableCallComponent, skipMixinSkip, h]
    simp [valueTableComponent]

/-! ### Claim C2: synthesized 1-based row ids of ValueTable -/

theorem valueTableColumns_targets : ∀ c ∈ valueTableColumns, c.target ≠ "id" := by
  decide

theorem lookup_append_key (l : Row) (k : String) (v : Value)
    (h : ∀ p ∈ l, p.1 ≠ k) : List.lookup k (l ++ [(k, v)]) = some v := by
  induction l with
  | nil => simp [List.lookup]
  | cons p ps ih =>
    have hp : (k == p.1) = false := by
      have hne := h p (by simp)
      exact beq_eq_false_iff_ne.mpr (Ne.symm hne)
    simp only [List.cons_append, List.lookup, hp]
    exact ih (fun q hq => h q (by simp [hq]))

theorem dictSet_append (l : Row) (k : String) (v : Value)
    (h : ∀ p ∈ l, p.1 ≠ k) : dictSet l k v = l ++ [(k, v)] := by
  have hany : l.any (fun p => p.1 == k) = false :=
    List.any_eq_false.mpr (fun p hp => by simp [beq_eq_false_iff_ne, h p hp])
  simp [dictSet, hany]

theorem extract_keys_ne_id (record : String → Value) :
    ∀ p ∈ extract valueTableColumns record, p.1 ≠ "id" := by
  intro p hp
  simp only [extract, List.mem_map] at hp
  obtain ⟨c, hc, rfl⟩ := hp
  exact valueTableColumns_targets c hc

theorem enumerateRows_ids (l : List (String → Value)) : ∀ n : Nat,
    (((enumerateFrom n l).map
        (fun p => dictSet (extract valueTableColumns p.2) "id" (Value.num p.1))).map
      (fun r => List.lookup "id" r))
      = (List.range' n l.length).map (fun i => some (Value.num i)) := by
  induction l with
  | nil => intro n; simp [enumerateFrom, List.range']
  | cons x xs ih =>
    intro n
    have hhead : List.lookup "id"
        (dictSet (extract valueTableColumns x) "id" (Value.num n))
        = some (Value.num n) := by
      rw [dictSet_append _ _ _ (extract_keys_ne_id x)]
      exact lookup_append_key _ _ _ (extract_keys_ne_id x)
    simp only [enumerateFrom, List.map_cons, List.length_cons, List.range'_succ]
    rw [hhead, ih (n + 1)]

/-- Claim C2.  The rows produced by `ValueTable` carry `id` values that
are exactly the 1-based positions `1..N` of the observations in source
iteration order, with no gaps or repeats, for every dataset (hence
independent of any field values of the observations). -/
theorem claim_c2 (ds : Dataset) :
    (valueTableRows ds).map (fun r => List.lookup "id" r)
      = (List.range' 1 ds.data.length).map (fun i => some (Value.num i)) := by
  unfold valueTableRows
  exact enumerateRows_ids ds.data 1

/-! ### Claim C4: rule shapes in the column-spec builder -/

theorem lookup_updateRule_ne (k g : String) (r : Rule) (rules : RuleTable)
    (h : k ≠ g) : List.lookup k (updateRule g r rules) = List.lookup k rules := by
  induction rules with
  | nil => rfl
  | cons p ps ih =>
    obtain ⟨p1, p2⟩ := p
    simp only [updateRule, List.map_cons] at ih ⊢
    have hk2 : (k == g) = false := beq_eq_false_iff_ne.mpr h
    by_cases hp : p1 = g
    · subst hp
      rw [if_pos rfl]
      simp only [List.lookup, hk2]
      exact ih
    · rw [if_neg (by simpa using hp)]
      cases hkp : (k == p1) with
      | true => simp [List.lookup, hkp]
      | false =>
        simp only [List.lookup, hkp]
        exact ih

theorem finishCol_name (f : SrcField) (target : String) (cfg : Config)
    (col : ColSpec) (c2 : Config)
    (h : finishCol f target cfg = some (col, c2)) : col.name = f.name := by
  unfold finishCol at h
  cases hsv : cfg.separator with
  | none =>
    rw [hsv] at h
    simp only [finishColAux, Option.some.injEq, Prod.mk.injEq] at h
    rw [← h.1]
  | some sv =>
    rw [hsv] at h
    cases hup : unpackSeparator sv with
    | none => simp [finishColAux, hup] at h
    | some p =>
      simp only [finishColAux, hup, Option.map, Option.some.injEq,
        Prod.mk.injEq] at h
      rw [← h.1]

theorem processField_some_name (f : SrcField) (rules rules1 : RuleTable)
    (col : ColSpec)
    (h : processField f rules = some (some col, rules1)) : col.name = f.name := by
  unfold processField at h
  cases hlk : List.lookup f.name rules with
  | none =>
    rw [hlk] at h
    simp only [processFieldAux] at h
    cases hfc : finishCol f f.name { name := some f.name } with
    | none => rw [hfc] at h; exact absurd h (by simp)
    | some pr =>
      rw [hfc] at h
      simp only [Option.map, Option.some.injEq, Prod.mk.injEq,
        Option.some.injEq] at h
      obtain ⟨h1, -⟩ := h
      obtain ⟨colh, cfgh⟩ := pr
      cases h1
      exact finishCol_name _ _ _ _ _ hfc
  | some r =>
    rw [hlk] at h
    cases r with
    | drop => simp [processFieldAux] at h
    | rename t =>
      simp only [processFieldAux] at h
      cases hfc : finishCol f t { name := some t } with
      | none => rw [hfc] at h; exact absurd h (by simp)
      | some pr =>
        rw [hfc] at h
        simp only [Option.map, Option.some.injEq, Prod.mk.injEq,
          Option.some.injEq] at h
        obtain ⟨h1, -⟩ := h
        obtain ⟨colh, cfgh⟩ := pr
        cases h1
        exact finishCol_name _ _ _ _ _ hfc
    | config cfg =>
      simp only [processFieldAux] at h
      cases hfc : finishCol f (cfg.name.getD f.name)
          { cfg with name := some (cfg.name.getD f.name) } with
      | none => rw [hfc] at h; exact absurd h (by simp)
      | some pr =>
        rw [hfc] at h
        simp only [Option.map, Option.some.injEq, Prod.mk.injEq,
          Option.some.injEq] at h
        obtain ⟨h1, -⟩ := h
        obtain ⟨colh, cfgh⟩ := pr
        cases h1
        exact finishCol_name _ _ _ _ _ hfc

theorem processField_lookup_ne (f : SrcField) (rules rules1 : RuleTable)
    (c : Option ColSpec) (k : String) (hk : k ≠ f.name)
    (h : processField f rules = some (c, rules1)) :
    List.lookup k rules1 = List.lookup k rules := by
  unfold processField at h
  cases hlk : List.lookup f.name rules with
  | none =>
    rw [hlk] at h
    simp only [processFieldAux] at h
    cases hfc : finishCol f f.name { name := some f.name } with
    | none => rw [hfc] at h; exact absurd h (by simp)
    | some pr =>
      rw [hfc] at h
      simp only [Option.map, Option.some.injEq, Prod.mk.injEq] at h
      rw [← h.2]
  | some r =>
    rw [hlk] at h
    cases r with
    | drop =>
      simp only [processFieldAux, Option.some.injEq, Prod.mk.injEq] at h
      rw [← h.2]
    | rename t =>
      simp only [processFieldAux] at h
      cases hfc : finishCol f t { name := some t } with
      | none => rw [hfc] at h; exact absurd h (by simp)
      | some pr =>
        rw [hfc] at h
        simp only [Option.map, Option.some.injEq, Prod.mk.injEq] at h
        rw [← h.2]
    | config cfg =>
      simp only [processFieldAux] at h
      cases hfc : finishCol f (cfg.name.getD f.name)
          { cfg with name := some (cfg.name.getD f.name) } with
      | none => rw [hfc] at h; exact absurd h (by simp)
      | some pr =>
        rw [hfc] at h
        simp only [Option.map, Option.some.injEq, Prod.mk.injEq] at h
        rw [← h.2]
        exact lookup_updateRule_ne k f.name (Rule.config pr.2) rules hk

theorem itercols_cons_inv (f : SrcField) (fs : List SrcField) (rules : RuleTable)
    (cols : List ColSpec) (rt : RuleTable)
    (h : itercols (f :: fs) rules = some (cols, rt)) :
    ∃ c1 rules1 cols2,
      processField f rules = some (c1, rules1) ∧
      itercols fs rules1 = some (cols2, rt) ∧
      cols = c1.toList ++ cols2 := by
  simp only [itercols, Option.bind_eq_some, Option.map_eq_some'] at h
  obtain ⟨pr, hpf, pr2, hit2, heq⟩ := h
  obtain ⟨c1, rules1⟩ := pr
  obtain ⟨cols2, rt2⟩ := pr2
  cases heq
  exact ⟨c1, rules1, cols2, hpf, hit2, rfl⟩

theorem processField_drop (f : SrcField) (rules : RuleTable)
    (hlk : List.lookup f.name rules = some Rule.drop) :
    processField f rules = some (none, rules) := by
  unfold processField
  rw [hlk]
  rfl

theorem itercols_drop_excluded (k : String) :
    ∀ (fields : List SrcField) (rules : RuleTable) (cols : List ColSpec)
      (rt : RuleTable),
    List.lookup k rules = some Rule.drop →
    itercols fields rules = some (cols, rt) →
    ∀ c ∈ cols, c.name ≠ k := by
  intro fields
  induction fields with
  | nil =>
    intro rules cols rt hlk hit
    simp only [itercols, Option.some.injEq, Prod.mk.injEq] at hit
    rw [← hit.1]
    intro c hc
    exact absurd hc (List.not_mem_nil c)
  | cons f fs ih =>
    intro rules cols rt hlk hit
    obtain ⟨c1, rules1, cols2, hpf, hit2, rfl⟩ :=
      itercols_cons_inv f fs rules cols rt hit
    intro c hc
    rcases List.mem_append.mp hc with hm | hm
    · by_cases hfk : f.name = k
      · have hpf' : processField f rules = some (none, rules) :=
          processField_drop f rules (hfk ▸ hlk)
        rw [hpf'] at hpf
        simp only [Option.some.injEq, Prod.mk.injEq] at hpf
        rw [← hpf.1] at hm
        exact absurd hm (List.not_mem_nil c)
      · cases c1 with
        | none => exact absurd hm (List.not_mem_nil c)
        | some col =>
          have hname := processField_some_name f rules rules1 col hpf
          have hcm : c = col := by simpa using hm
          rw [hcm, hname]
          exact hfk
    · have hlk1 : List.lookup k rules1 = some Rule.drop := by
        by_cases hfk : f.name = k
        · have hpf' : processField f rules = some (none, rules) :=
            processField_drop f rules (hfk ▸ hlk)
          rw [hpf'] at hpf
          simp only [Option.some.injEq, Prod.mk.injEq] at hpf
          rw [← hpf.2]
          exact hlk
        · rw [processField_lookup_ne f rules rules1 c1 k
            (fun he => hfk he.symm) hpf]
          exact hlk
      exact ih rules1 cols2 rt hlk1 hit2 c hm

theorem processField_rename (f : SrcField) (rules : RuleTable) (t : String)
    (hlk : List.lookup f.name rules = some (Rule.rename t)) :
    processField f rules = some (some (ColSpec.mk f.name Transform.id t
      { name := some t, datatype := some (inferDatatype f) }), rules) := by
  unfold processField
  rw [hlk]
  rfl

theorem itercols_rename_col :
    ∀ (fields : List SrcField) (rules : RuleTable) (cols : List ColSpec)
      (rt : RuleTable) (f : SrcField) (t : String),
    (fields.map SrcField.name).Nodup →
    itercols fields rules = some (cols, rt) →
    f ∈ fields →
    List.lookup f.name rules = some (Rule.rename t) →
    ∃ c ∈ cols, c.name = f.name ∧ c.target = t ∧ c.transform = Transform.id ∧
      c.args = { name := some t, datatype := some (inferDatatype f) } := by
  intro fields
  induction fields with
  | nil =>
    intro rules cols rt f t hnd hit hmem hlk
    exact absurd hmem (List.not_mem_nil f)
  | cons f0 fs ih =>
    intro rules cols rt f t hnd hit hmem hlk
    obtain ⟨c1, rules1, cols2, hpf, hit2, rfl⟩ :=
      itercols_cons_inv f0 fs rules cols rt hit
    rcases List.mem_cons.mp hmem with rfl | hmem'
    · have hpf' := processField_rename f rules t hlk
      rw [hpf'] at hpf
      simp only [Option.some.injEq, Prod.mk.injEq] at hpf
      refine ⟨ColSpec.mk f.name Transform.id t
        { name := some t, datatype := some (inferDatatype f) },
        ?_, rfl, rfl, rfl, rfl⟩
      rw [← hpf.1]
      simp
    · have hne : f.name ≠ f0.name := by
        intro he
        simp only [List.map_cons, List.nodup_cons] at hnd
        exact hnd.1 (he ▸ List.mem_map_of_mem SrcField.name hmem')
      have hlk1 : List.lookup f.name rules1 = some (Rule.rename t) := by
        rw [processField_lookup_ne f0 rules rules1 c1 f.name hne hpf]
        exact hlk
      have hnd' : (fs.map SrcField.name).Nodup := by
        simp only [List.map_cons, List.nodup_cons] at hnd
        exact hnd.2
      obtain ⟨c, hcm, hp⟩ := ih rules1 cols2 rt f t hnd' hit2 hmem' hlk1
      exact ⟨c, List.mem_append.mpr (Or.inr hcm), hp⟩

theorem processField_config_some (f : SrcField) (rules rules1 : RuleTable)
    (c1 : Option ColSpec) (cfg : Config)
    (hlk : List.lookup f.name rules = some (Rule.config cfg))
    (hpf : processField f rules = some (c1, rules1)) :
    ∃ col, c1 = some col ∧ col.name = f.name ∧
      (cfg.datatype = none → col.args.datatype = some (inferDatatype f)) := by
  unfold processField at hpf
  rw [hlk] at hpf
  simp only [processFieldAux] at hpf
  cases hfc : finishCol f (cfg.name.getD f.name)
      { cfg with name := some (cfg.name.getD f.name) } with
  | none => rw [hfc] at hpf; exact absurd hpf (by simp)
  | some pr =>
    rw [hfc] at hpf
    simp only [Option.map, Option.some.injEq, Prod.mk.injEq] at hpf
    obtain ⟨colv, cfgv⟩ := pr
    refine ⟨colv, by rw [← hpf.1], finishCol_name _ _ _ _ _ hfc, ?_⟩
    intro hdt
    unfold finishCol at hfc
    cases hsv : cfg.separator with
    | none =>
      rw [show ({ cfg with name := some (cfg.name.getD f.name)} : Config).separator
          = none from hsv] at hfc
      simp only [finishColAux, hdt, reduceIte, Option.some.injEq,
        Prod.mk.injEq] at hfc
      rw [← hfc.1]
    | some sv =>
      rw [show ({ cfg with name := some (cfg.name.getD f.name)} : Config).separator
          = some sv from hsv] at hfc
      cases hup : unpackSeparator sv with
      | none => simp [finishColAux, hup] at hfc
      | some p =>
        simp only [finishColAux, hup, Option.map, hdt, reduceIte,
          Option.some.injEq, Prod.mk.injEq] at hfc
        rw [← hfc.1]

theorem itercols_config_datatype :
    ∀ (fields : List SrcField) (rules : RuleTable) (cols : List ColSpec)
      (rt : RuleTable) (f : SrcField) (cfg : Config),
    (fields.map SrcField.name).Nodup →
    itercols fields rules = some (cols, rt) →
    f ∈ fields →
    List.lookup f.name rules = some (Rule.config cfg) →
    cfg.datatype = none →
    ∃ c ∈ cols, c.name = f.name ∧ c.args.datatype = some (inferDatatype f) := by
  intro fields
  induction fields with
  | nil =>
    intro rules cols rt f cfg hnd hit hmem hlk hdt
    exact absurd hmem (List.not_mem_nil f)
  | cons f0 fs ih =>
    intro rules cols rt f cfg hnd hit hmem hlk hdt
    obtain ⟨c1, rules1, cols2, hpf, hit2, rfl⟩ :=
      itercols_cons_inv f0 fs rules cols rt hit
    rcases List.mem_cons.mp hmem with rfl | hmem'
    · obtain ⟨col, rfl, hname, hdty⟩ :=
        processField_config_some f rules rules1 c1 cfg hlk hpf
      exact ⟨col, List.mem_append.mpr (Or.inl (by simp)), hname, hdty hdt⟩
    · have hne : f.name ≠ f0.name := by
        intro he
        simp only [List.map_cons, List.nodup_cons] at hnd
        exact hnd.1 (he ▸ List.mem_map_of_mem SrcField.name hmem')
      have hlk1 : List.lookup f.name rules1 = some (Rule.config cfg) := by
        rw [processField_lookup_ne f0 rules rules1 c1 f.name hne hpf]
        exact hlk
      have hnd' : (fs.map SrcField.name).Nodup := by
        simp only [List.map_cons, List.nodup_cons] at hnd
        exact hnd.2
      obtain ⟨c, hcm, hp⟩ := ih rules1 cols2 rt f cfg hnd' hit2 hmem' hlk1 hdt
      exact ⟨c, List.mem_append.mpr (Or.inr hcm), hp⟩

theorem processField_norule (f : SrcField) (rules : RuleTable)
    (hlk : List.lookup f.name rules = none) :
    processField f rules = some (some (ColSpec.mk f.name Transform.id f.name
      { name := some f.name, datatype := some (inferDatatype f) }), rules) := by
  unfold processField
  rw [hlk]
  rfl

theorem itercols_norule_col :
    ∀ (fields : List SrcField) (rules : RuleTable) (cols : List ColSpec)
      (rt : RuleTable) (f : SrcField),
    (fields.map SrcField.name).Nodup →
    itercols fields rules = some (cols, rt) →
    f ∈ fields →
    List.lookup f.name rules = none →
    ∃ c ∈ cols, c.name = f.name ∧ c.target = f.name ∧
      c.transform = Transform.id ∧
      c.args = { name := some f.name, datatype := some (inferDatatype f) } := by
  intro fields
  induction fields with
  | nil =>
    intro rules cols rt f hnd hit hmem hlk
    exact absurd hmem (List.not_mem_nil f)
  | cons f0 fs ih =>
    intro rules cols rt f hnd hit hmem hlk
    obtain ⟨c1, rules1, cols2, hpf, hit2, rfl⟩ :=
      itercols_cons_inv f0 fs rules cols rt hit
    rcases List.mem_cons.mp hmem with rfl | hmem'
    · have hpf' := processField_norule f rules hlk
      rw [hpf'] at hpf
      simp only [Option.some.injEq, Prod.mk.injEq] at hpf
      refine ⟨ColSpec.mk f.name Transform.id f.name
        { name := some f.name, datatype := some (inferDatatype f) },
        ?_, rfl, rfl, rfl, rfl⟩
      rw [← hpf.1]
      simp
    · have hne : f.name ≠ f0.name := by
        intro he
        simp only [List.map_cons, List.nodup_cons] at hnd
        exact hnd.1 (he ▸ List.mem_map_of_mem SrcField.name hmem')
      have hlk1 : List.lookup f.name rules1 = none := by
        rw [processField_lookup_ne f0 rules rules1 c1 f.name hne hpf]
        exact hlk
      have hnd' : (fs.map SrcField.name).Nodup := by
        simp only [List.map_cons, List.nodup_cons] at hnd
        exact hnd.2
      obtain ⟨c, hcm, hp⟩ := ih rules1 cols2 rt f hnd' hit2 hmem' hlk1
      exact ⟨c, List.mem_append.mpr (Or.inr hcm), hp⟩

/-- Claim C4.  In the column-spec builder: a field whose rule is a
Python `None` (`Rule.drop`) is excluded entirely from the output columns
(hence from the extracted row mapping, which is built from the columns);
a field whose rule is a bare string gets that string as its target
column name, with the identity transform and no configuration beyond the
target name and the inferred datatype; and a field whose configuration
has no explicit `datatype` key gets `float` when the source field's
declared value type is floating-point and `string` otherwise — both for
a dict-shaped rule with no `datatype` entry and for a field with no
rule-table entry at all, whose default passthrough configuration also
carries only the target name and the inferred datatype. -/
theorem claim_c4 :
    (∀ (fields : List SrcField) (rules : RuleTable) (cols : List ColSpec)
        (rt : RuleTable) (k : String),
      List.lookup k rules = some Rule.drop →
      itercols fields rules = some (cols, rt) →
      ∀ c ∈ cols, c.name ≠ k) ∧
    (∀ (fields : List SrcField) (rules : RuleTable) (cols : List ColSpec)
        (rt : RuleTable) (f : SrcField) (t : String),
      (fields.map SrcField.name).Nodup →
      itercols fields rules = some (cols, rt) →
      f ∈ fields →
      List.lookup f.name rules = some (Rule.rename t) →
      ∃ c ∈ cols, c.name = f.name ∧ c.target = t ∧
        c.transform = Transform.id ∧
        c.args = { name := some t, datatype := some (inferDatatype f) }) ∧
    (∀ (fields : List SrcField) (rules : RuleTable) (cols : List ColSpec)
        (rt : RuleTable) (f : SrcField) (cfg : Config),
      (fields.map SrcField.name).Nodup →
      itercols fields rules = some (cols, rt) →
      f ∈ fields →
      List.lookup f.name rules = some (Rule.config cfg) →
      cfg.datatype = none →
      ∃ c ∈ cols, c.name = f.name ∧
        c.args.datatype = some (inferDatatype f)) ∧
    (∀ (fields : List SrcField) (rules : RuleTable) (cols : List ColSpec)
        (rt : RuleTable) (f : SrcField),
      (fields.map SrcField.name).Nodup →
      itercols fields rules = some (cols, rt) →
      f ∈ fields →
      List.lookup f.name rules = none →
      ∃ c ∈ cols, c.name = f.name ∧ c.target = f.name ∧
        c.transform = Transform.id ∧
        c.args = { name := some f.name,
                   datatype := some (inferDatatype f) }) := by
  refine ⟨?_, ?_, ?_, ?_⟩
  · intro fields rules cols rt k hlk hit
    exact itercols_drop_excluded k fields rules cols rt hlk hit
  · intro fields rules cols rt f t hnd hit hmem hlk
    exact itercols_rename_col fields rules cols rt f t hnd hit hmem hlk
  · intro fields rules cols rt f cfg hnd hit hmem hlk hdt
    exact itercols_config_datatype fields rules cols rt f cfg hnd hit hmem hlk hdt
  · intro fields rules cols rt f hnd hit hmem hlk
    exact itercols_norule_col fields rules cols rt f hnd hit hmem hlk

/-- Claim C4, witness: the four parts applied to a concrete field list
and rule table with a dropped field (`codes`), a renamed field
(`title` to `name`), a configured field with no datatype (`year`,
declared floating-point), and a field with no rule-table entry
(`comment`). -/
theorem claim_c4_witness :
    (List.lookup "codes" c4WitnessRules = some Rule.drop ∧
     (c4WitnessFields.map SrcField.name).Nodup ∧
     List.lookup "comment" c4WitnessRules = none ∧
     itercols c4WitnessFields c4WitnessRules
       = some (c4WitnessCols, c4WitnessRt)) ∧
    (∀ c ∈ c4WitnessCols, c.name ≠ "codes") ∧
    (∃ c ∈ c4WitnessCols,
       c.name = "title" ∧ c.target = "name" ∧ c.transform = Transform.id ∧
       c.args = { name := some "name",
                  datatype := some (inferDatatype (SrcField.mk "title" false)) }) ∧
    (∃ c ∈ c4WitnessCols,
       c.name = "year" ∧
       c.args.datatype = some (inferDatatype (SrcField.mk "year" true))) ∧
    (∃ c ∈ c4WitnessCols,
       c.name = "comment" ∧ c.target = "comment" ∧
       c.transform = Transform.id ∧
       c.args = { name := some "comment",
                  datatype := some
                    (inferDatatype (SrcField.mk "comment" false)) }) := by
  refine ⟨⟨by decide, by decide, by decide, by decide⟩, ?_, ?_, ?_, ?_⟩
  · exact claim_c4.1 c4WitnessFields c4WitnessRules c4WitnessCols c4WitnessRt
      "codes" (by decide) (by decide)
  · have h := claim_c4.2.1 c4WitnessFields c4WitnessRules c4WitnessCols
      c4WitnessRt (SrcField.mk "title" false) "name"
      (by decide) (by decide) (by decide) (by decide)
    exact h
  · have h := claim_c4.2.2.1 c4WitnessFields c4WitnessRules c4WitnessCols
      c4WitnessRt (SrcField.mk "year" true) {}
      (by decide) (by decide) (by decide) (by decide) (by decide)
    exact h
  · have h := claim_c4.2.2.2 c4WitnessFields c4WitnessRules c4WitnessCols
      c4WitnessRt (SrcField.mk "comment" false)
      (by decide) (by decide) (by decide) (by decide)
    exact h

/-! ### Claim C5: skippable versus always-emitted tables -/

theorem mem_writeKeys_iff (ds : Dataset) (k : String) :
    k ∈ writeKeys ds ↔ ∃ c, c ∈ converterList ∧ convSkip c ds = false ∧
      componentKey (convComponent c) = k := by
  constructor
  · intro hk
    obtain ⟨c, hc, hkey⟩ := List.mem_map.mp hk
    obtain ⟨hcl, hcs⟩ := List.mem_filter.mp hc
    exact ⟨c, hcl, by simpa using hcs, hkey⟩
  · intro hex
    obtain ⟨c, hcl, hcs, hkey⟩ := hex
    exact List.mem_map.mpr ⟨c, List.mem_filter.mpr ⟨hcl, by simp [hcs]⟩, hkey⟩

/-- Claim C5.  For a dataset with zero matching source records of a
converter's entity type: the three `SkipMixin` converters report
`skip = true` and their component key is absent from the driver's write
set; `ParameterTable` and `ValueTable` report `skip = false`
(`BaseConverter.skip`) and their component keys are always present. -/
theorem claim_c5 (ds : Dataset) :
    (ds.societies = [] → convSkip Conv.language ds = true ∧
      componentKey languageTableComponent ∉ writeKeys ds) ∧
    (ds.society_relations = [] → convSkip Conv.related ds = true ∧
      componentKey langugageRelatedTableComponent ∉ writeKeys ds) ∧
    (datasetCodes ds = [] → convSkip Conv.code ds = true ∧
      componentKey codeTableComponent ∉ writeKeys ds) ∧
    (ds.vars = [] → convSkip Conv.parameter ds = false ∧
      componentKey parameterTableComponent ∈ writeKeys ds) ∧
    (ds.data = [] → convSkip Conv.value ds = false ∧
      componentKey valueTableComponent ∈ writeKeys ds) := by
  refine ⟨?_, ?_, ?_, ?_, ?_⟩
  · intro h
    have hskip : convSkip Conv.language ds = true := by
      simp [convSkip, skipMixinSkip, h]
    refine ⟨hskip, ?_⟩
    intro hk
    obtain ⟨c, hcl, hcs, hkey⟩ := (mem_writeKeys_iff ds _).mp hk
    cases c with
    | language => rw [hskip] at hcs; exact absurd hcs (by simp)
    | related => exact absurd hkey (by decide)
    | parameter => exact absurd hkey (by decide)
    | code => exact absurd hkey (by decide)
    | value => exact absurd hkey (by decide)
  · intro h
    have hskip : convSkip Conv.related ds = true := by
      simp [convSkip, skipMixinSkip, h]
    refine ⟨hskip, ?_⟩
    intro hk
    obtain ⟨c, hcl, hcs, hkey⟩ := (mem_writeKeys_iff ds _).mp hk
    cases c with
    | language => exact absurd hkey (by decide)
    | related => rw [hskip] at hcs; exact absurd hcs (by simp)
    | parameter => exact absurd hkey (by decide)
    | code => exact absurd hkey (by decide)
    | value => exact absurd hkey (by decide)
  · intro h
    have hskip : convSkip Conv.code ds = true := by
      simp [convSkip, skipMixinSkip, h]
    refine ⟨hskip, ?_⟩
    intro hk
    obtain ⟨c, hcl, hcs, hkey⟩ := (mem_writeKeys_iff ds _).mp hk
    cases c with
    | language => exact absurd hkey (by decide)
    | related => exact absurd hkey (by decide)
    | parameter => exact absurd hkey (by decide)
    | code => rw [hskip] at hcs; exact absurd hcs (by simp)
    | value => exact absurd hkey (by decide)
  · intro _
    exact ⟨rfl, (mem_writeKeys_iff ds _).mpr ⟨Conv.parameter, by decide, rfl, rfl⟩⟩
  · intro _
    exact ⟨rfl, (mem_writeKeys_iff ds _).mpr ⟨Conv.value, by decide, rfl, rfl⟩⟩

/-- Claim C5, witness: the theorem applied to the empty dataset, on
which every skippable converter skips and both non-skippable converters
still emit. -/
theorem claim_c5_witness :
    ((Dataset.mk [] [] [] []).societies = [] ∧
     (Dataset.mk [] [] [] []).society_relations = [] ∧
     datasetCodes (Dataset.mk [] [] [] []) = [] ∧
     (Dataset.mk [] [] [] []).vars = [] ∧
     (Dataset.mk [] [] [] []).data = []) ∧
    (convSkip Conv.language (Dataset.mk [] [] [] []) = true ∧
      componentKey languageTableComponent ∉ writeKeys (Dataset.mk [] [] [] [])) ∧
    (convSkip Conv.related (Dataset.mk [] [] [] []) = true ∧
      componentKey langugageRelatedTableComponent
        ∉ writeKeys (Dataset.mk [] [] [] [])) ∧
    (convSkip Conv.code (Dataset.mk [] [] [] []) = true ∧
      componentKey codeTableComponent ∉ writeKeys (Dataset.mk [] [] [] [])) ∧
    (convSkip Conv.parameter (Dataset.mk [] [] [] []) = false ∧
      componentKey parameterTableComponent ∈ writeKeys (Dataset.mk [] [] [] [])) ∧
    (convSkip Conv.value (Dataset.mk [] [] [] []) = false ∧
      componentKey valueTableComponent ∈ writeKeys (Dataset.mk [] [] [] [])) := by
  refine ⟨⟨rfl, rfl, rfl, rfl, rfl⟩, ?_, ?_, ?_, ?_, ?_⟩
  · exact (claim_c5 (Dataset.mk [] [] [] [])).1 rfl
  · exact (claim_c5 (Dataset.mk [] [] [] [])).2.1 rfl
  · exact (claim_c5 (Dataset.mk [] [] [] [])).2.2.1 rfl
  · exact (claim_c5 (Dataset.mk [] [] [] [])).2.2.2.1 rfl
  · exact (claim_c5 (Dataset.mk [] [] [] [])).2.2.2.2 rfl

/-! ### Claim C6: the shared static ValueTable component is not mutated -/

/-- Claim C6.  Running the component-handling part of
`ValueTable.__call__` on the object store leaves the shared static
component (the spec stored at the shared reference) unchanged, for every
dataset — the foreign-key filtering is applied to a freshly allocated
deep copy; and when the dataset has zero societies, the reference the
call returns designates exactly the filtered copy. -/
theorem claim_c6 (st : Store) (r : Nat) (ds : Dataset)
    (h : r < st.specs.length) :
    (valueTableRun st r ds).1.specs[r]? = st.specs[r]? ∧
    (skipMixinSkip ds.societies = true →
      (valueTableRun st r ds).1.specs[(valueTableRun st r ds).2]?
        = some (filterSocietiesFks (st.specs.getD r valueTableComponent))) := by
  cases hskip : skipMixinSkip ds.societies with
  | false =>
    simp [valueTableRun, hskip]
  | true =>
    simp only [valueTableRun, hskip, if_true]
    constructor
    · rw [List.getElem?_set_ne (by omega)]
      rw [List.getElem?_append]
      rw [if_pos h]
    · intro _
      rw [List.getElem?_set]
      rw [if_pos rfl]
      rw [if_pos (by simp)]

/-- Claim C6, witness: the theorem applied to a store holding exactly
the static `ValueTable` component, with a dataset that has zero
societies (so the filtering branch runs). -/
theorem claim_c6_witness :
    0 < (Store.mk [valueTableComponent]).specs.length ∧
    (valueTableRun (Store.mk [valueTableComponent]) 0
        (Dataset.mk [] [] [] [])).1.specs[0]?
      = (Store.mk [valueTableComponent]).specs[0]? ∧
    (skipMixinSkip (Dataset.mk [] [] [] []).societies = true →
      (valueTableRun (Store.mk [valueTableComponent]) 0
          (Dataset.mk [] [] [] [])).1.specs[(valueTableRun
            (Store.mk [valueTableComponent]) 0 (Dataset.mk [] [] [] [])).2]?
        = some (filterSocietiesFks
            ((Store.mk [valueTableComponent]).specs.getD 0
              valueTableComponent))) := by
  refine ⟨by decide, ?_, ?_⟩
  · exact (claim_c6 (Store.mk [valueTableComponent]) 0
      (Dataset.mk [] [] [] []) (by decide)).1
  · exact (claim_c6 (Store.mk [valueTableComponent]) 0
      (Dataset.mk [] [] [] []) (by decide)).2

/-! ### Claim C7: determinism of the conversion -/

/-- Claim C7.  The driver loop relation is deterministic: two runs of
the converter list against the same source dataset produce the same
table-key-to-row-list write set, so the emitted row sets are a function
of the source dataset alone. -/
theorem claim_c7 :
    ∀ (cs : List Conv) (ds : Dataset) (out1 out2 : List (String × List Row)),
    ConvertersRun cs ds out1 → ConvertersRun cs ds out2 → out1 = out2 := by
  intro cs ds out1 out2 h1
  induction h1 generalizing out2 with
  | nil ds =>
    intro h2
    cases h2
    rfl
  | skipped c cs ds out hskip hrun ih =>
    intro h2
    cases h2 with
    | skipped _ _ _ _ hskip2 hrun2 => exact ih _ hrun2
    | emitted _ _ _ _ hskip2 hrun2 =>
      rw [hskip] at hskip2
      exact absurd hskip2 (by simp)
  | emitted c cs ds out hskip hrun ih =>
    intro h2
    cases h2 with
    | skipped _ _ _ _ hskip2 hrun2 =>
      rw [hskip] at hskip2
      exact absurd hskip2 (by simp)
    | emitted _ _ _ _ hskip2 hrun2 =>
      rw [ih _ hrun2]

/-- Claim C7, witness: the determinism theorem applied to two identical
runs of the full converter list on the empty dataset (the three
skippable converters skip; `ParameterTable` and `ValueTable` emit empty
row lists). -/
theorem claim_c7_witness :
    ConvertersRun converterList (Dataset.mk [] [] [] [])
      [(componentKey parameterTableComponent, []),
       (componentKey valueTableComponent, [])] ∧
    ([(componentKey parameterTableComponent, []),
      (componentKey valueTableComponent, [])] : List (String × List Row))
      = [(componentKey parameterTableComponent, []),
         (componentKey valueTableComponent, [])] := by
  have d : ConvertersRun converterList (Dataset.mk [] [] [] [])
      [(componentKey parameterTableComponent, []),
       (componentKey valueTableComponent, [])] := by
    refine ConvertersRun.skipped _ _ _ _ rfl ?_
    refine ConvertersRun.skipped _ _ _ _ rfl ?_
    refine ConvertersRun.emitted _ _ _ _ rfl ?_
    refine ConvertersRun.skipped _ _ _ _ rfl ?_
    refine ConvertersRun.emitted _ _ _ _ rfl ?_
    exact ConvertersRun.nil _
  exact ⟨d, claim_c7 converterList (Dataset.mk [] [] [] []) _ _ d d⟩

/-! ### Claim C8: per-dataset output directories of the entry point -/

/-- Claim C8.  The loop in `main` reassigns its `target_dir` variable
(`target_dir = os.path.join(target_dir, source_ds.id)`), so the second
and later datasets are nested inside the previous dataset's output
directory instead of directly under the target root: with target root
`T` and dataset ids `A`, `B` the code uses `T/A` then `T/A/B`, where the
claim (and the spec) require `T/A` then `T/B`. -/
theorem claim_c8 :
    mainTargetDirs "T" ["A", "B"] = ["T/A", "T/A/B"] ∧
    specTargetDirs "T" ["A", "B"] = ["T/A", "T/B"] ∧
    mainTargetDirs "T" ["A", "B"] ≠ specTargetDirs "T" ["A", "B"] := by
  refine ⟨rfl, rfl, by decide⟩

/-! ### Claim C9: Separator instances in the rule tables -/

/-- Claim C9, counterexample.  The claim says every `Separator` in the
five rule tables is one of `(", ", split=true)` and `("; ", split=false)`;
but `ParameterTable._convert['category']` holds a third instance,
`(", ", split=false)`, distinct from both. -/
theorem claim_c9_counterexample :
    (([',', ' '], false) : List Char × Bool)
        ∈ collectSeparators parameterTableConvert ∧
    (([',', ' '], false) : List Char × Bool) ≠ ([',', ' '], true) ∧
    (([',', ' '], false) : List Char × Bool) ≠ ([';', ' '], false) := by
  decide

/-- Claim C9, amended.  Every `Separator` value in the five
field-conversion-rule tables is one of exactly three instances:
`(", ", split=true)` for society alternate names, `("; ", split=false)`
for relation lists and source citation lists, and `(", ", split=false)`
for the variable category list.  In registration order the occurrences
are exactly those four. -/
theorem claim_c9 :
    allTableSeparators
      = [([',', ' '], true), ([';', ' '], false), ([',', ' '], false),
         ([';', ' '], false)] ∧
    ∀ s ∈ allTableSeparators,
      s = ([',', ' '], true) ∨ s = ([';', ' '], false) ∨
      s = ([',', ' '], false) := by
  decide

/-! ### Claim C10: reconstruction is not idempotent -/

/-- Claim C10, counterexample.  Constructing `LangugageRelatedTable` a
second time does not reproduce the first construction's column
specifications: the first run replaced the stored `Separator` pair by
the delimiter string `"; "`, and the second run unpacks that
two-character string as a (character, character) pair, so the `related`
column's stored separator becomes `";"` and its extraction becomes a
split, where the first construction had the identity. -/
theorem claim_c10_counterexample :
    (itercolsTwice relatedFields langugageRelatedTableConvert).map
      (fun p => decide (p.1 = p.2)) = some false := by
  decide

/-- Claim C10, amended.  A second construction of each of the four
generic converter subclasses yields the same ordered target names and
datatypes as the first, but not the same column specifications or
extraction behavior: every separator-configured field has its stored
separator replaced by the first character of its two-character delimiter
and its extraction switched to a split on that character (the second
component of the unpacked character pair is a one-character string,
which is truthy).  On `LangugageRelatedTable` concretely, the second
run turns the `related` column from the identity with separator `"; "`
into a split on `";"`. -/
theorem claim_c10 :
    ((itercolsTwice societyFields languageTableConvert).map
        (fun p => decide (p.1.map ColSpec.target = p.2.map ColSpec.target ∧
          p.1.map (fun c => c.args.datatype)
            = p.2.map (fun c => c.args.datatype) ∧ p.1 ≠ p.2)) = some true) ∧
    ((itercolsTwice relatedFields langugageRelatedTableConvert).map
        (fun p => decide (p.1.map ColSpec.target = p.2.map ColSpec.target ∧
          p.1.map (fun c => c.args.datatype)
            = p.2.map (fun c => c.args.datatype) ∧ p.1 ≠ p.2)) = some true) ∧
    ((itercolsTwice variableFields parameterTableConvert).map
        (fun p => decide (p.1.map ColSpec.target = p.2.map ColSpec.target ∧
          p.1.map (fun c => c.args.datatype)
            = p.2.map (fun c => c.args.datatype) ∧ p.1 ≠ p.2)) = some true) ∧
    ((itercolsTwice dataFields valueTableConvert).map
        (fun p => decide (p.1.map ColSpec.target = p.2.map ColSpec.target ∧
          p.1.map (fun c => c.args.datatype)
            = p.2.map (fun c => c.args.datatype) ∧ p.1 ≠ p.2)) = some true) ∧
    ((itercolsTwice relatedFields langugageRelatedTableConvert).map
        (fun p => p.2.map (fun c => (c.transform, c.args.separator)))
      = some [(Transform.id, none),
              (Transform.splitOn [';'], some (SepVal.str [';']))]) := by
  refine ⟨by decide, by decide, by decide, by decide, by decide⟩
